import Mathlib

/-!
Verification of the chapter-splitting EPUB converter (`src/main.py`).

The program parses an HTML file, walks the direct children of a traversal
root (the first `<article>` element if one exists, else the document body),
accumulates serialized tagged nodes into a buffer, flushes the buffer into a
chapter whenever an `h1`/`h2` heading is met, flushes a final chapter at end
of document, and packages the chapters (in order, also used as the table of
contents) into an EPUB.

The embedding below models the parsed DOM nodes exactly as the Python code
observes them through BeautifulSoup: a node is either a tagged element
(with its tag name `el.name`, its extracted text `el.get_text()` and its
serialized form `str(el)`) or a bare text node (whose `name` attribute is
`None`).
-/

namespace EpubSplit

/-- A tagged element as observed by the loop in `main`: its tag name
(`el.name`), its extracted text content (`el.get_text()`), and its full
serialized form (`str(el)`). -/
structure ElementNode where
  tag : String
  textContent : String
  serialized : String
deriving Repr, DecidableEq

/-- A direct child of the traversal root: either a tagged element or a bare
text node (BeautifulSoup `NavigableString`, whose `name` is `None`). -/
inductive Node where
  | elem (e : ElementNode)
  | text (s : String)
deriving Repr, DecidableEq

/-- The `name` attribute of a node: `some tag` for an element, `none` for a
bare text node (`NavigableString.name` is `None` in BeautifulSoup). -/
def Node.name : Node → Option String
  | .elem e => some e.tag
  | .text _ => none

/-- Python truthiness of `el.name`: `None` and the empty string are falsy. -/
def pyTruthyName : Option String → Bool
  | some s => s != ""
  | none => false

/-- The test `el.name and el.name in ['h1', 'h2']` from `main.py` line 63. -/
def Node.isHeading (el : Node) : Bool :=
  pyTruthyName el.name && (match el.name with
    | some s => ["h1", "h2"].contains s
    | none => false)

/-- The test `getattr(el, 'name', None)` (truthy) from `main.py` line 71. -/
def Node.hasTag (el : Node) : Bool :=
  pyTruthyName el.name

/-- Python `el.get_text()`: the text content with tags stripped. On a bare
text node it is the text itself. -/
def Node.get_text : Node → String
  | .elem e => e.textContent
  | .text s => s

/-- Python `str(el)`: the full serialized (tag-inclusive) form of the node. -/
def Node.str : Node → String
  | .elem e => e.serialized
  | .text s => s

/-- Whether the node is a bare text node. -/
def Node.isText : Node → Bool
  | .elem _ => false
  | .text _ => true

/-- Python `repr` quote choice for a string: single quotes unless the string
contains a single quote and no double quote. (Containment is checked on the
character list so that the definition reduces in the kernel.) -/
def pyReprQuote (s : String) : Char :=
  if s.data.contains '\'' && !(s.data.contains '"') then '"' else '\''

/-- Escape of one character under the chosen quote, as Python `repr` does for
quote and backslash characters (control characters, which never occur in the
strings handled here, are not modelled). -/
def pyEscape (q : Char) (c : Char) : String :=
  if c = '\\' then "\\\\"
  else if c = q then "\\" ++ String.singleton q
  else String.singleton c

/-- Python `repr` of a string (quote choice plus escaping). -/
def pyReprStr (s : String) : String :=
  let q := pyReprQuote s
  String.singleton q ++ String.join (s.data.map (pyEscape q)) ++ String.singleton q

/-- Python `str` applied to a list of strings: the bracketed, comma-separated
sequence of the `repr`s of the elements, e.g. `['<h1>A</h1>', '<p>x</p>']`.
This is what `chptr.content = str(html_content)` stores (`main.py` line 24). -/
def pyStrList (xs : List String) : String :=
  "[" ++ String.join (List.intersperse ", " (xs.map pyReprStr)) ++ "]"

/-- The chapter file name `f'chap_{idx}.xhtml'` from `make_chapter`. -/
def chapFileName (idx : Nat) : String :=
  "chap_" ++ Nat.repr idx ++ ".xhtml"

/-- A chapter record as built by `make_chapter` (`main.py` lines 19-25),
extended with the ghost fields `ordinal` (the `idx` argument, per the spec
data model) and `body` (the buffered list of serialized node strings). The
stored `content` is `str(html_content)`. -/
structure Chapter where
  title : String
  ordinal : Nat
  file_name : String
  body : List String
  content : String
deriving Repr, DecidableEq

/-- Embedding of `make_chapter(title, html_content, idx)`. -/
def make_chapter (title : String) (html_content : List String) (idx : Nat) : Chapter :=
  { title := title
    ordinal := idx
    file_name := chapFileName idx
    body := html_content
    content := pyStrList html_content }

/-- The mutable state of the splitting loop in `main` (`main.py` lines 55-59):
the emitted chapters, the ordinal counter `chapter_count`, the buffer
`current_chapter` and the pending title `current_title`. -/
structure SplitState where
  chapters : List Chapter
  chapter_count : Nat
  current_chapter : List String
  current_title : String
deriving Repr, DecidableEq

/-- The initial loop state (`main.py` lines 55-59). -/
def initState : SplitState :=
  { chapters := []
    chapter_count := 1
    current_chapter := []
    current_title := "Introduction" }

/-- One iteration of the loop `for el in article.children` (`main.py`
lines 61-72): on a heading, flush a non-empty buffer as a chapter
(incrementing the ordinal) and overwrite the pending title; then append the
serialized form of any tagged node to the buffer. -/
def processNode (st : SplitState) (el : Node) : SplitState :=
  let st1 :=
    if el.isHeading then
      let st2 :=
        if st.current_chapter.isEmpty then st
        else
          { st with
            chapters := st.chapters ++
              [make_chapter st.current_title st.current_chapter st.chapter_count]
            chapter_count := st.chapter_count + 1
            current_chapter := [] }
      { st2 with current_title := el.get_text }
    else st
  if el.hasTag then
    { st1 with current_chapter := st1.current_chapter ++ [el.str] }
  else st1

/-- The end-of-document flush (`main.py` lines 74-78): a non-empty buffer is
emitted as a last chapter with the current ordinal, without a further
increment. -/
def finalChapters (st : SplitState) : List Chapter :=
  if st.current_chapter.isEmpty then st.chapters
  else st.chapters ++ [make_chapter st.current_title st.current_chapter st.chapter_count]

/-- The chapter-splitting pass of `main` (`main.py` lines 55-78) applied to
the direct children of the traversal root. -/
def splitChapters (nodes : List Node) : List Chapter :=
  finalChapters (nodes.foldl processNode initState)

/-- An `<article>` element, reduced to what the traversal uses: its direct
children. -/
structure ArticleTag where
  children : List Node
deriving Repr, DecidableEq

/-- A parsed document, reduced to what `main` observes: the list of all
`<article>` elements in document order (`soup.find('article')` returns the
head of this list, if any) and the direct children of the document body. -/
structure Document where
  articles : List ArticleTag
  bodyChildren : List Node
deriving Repr, DecidableEq

/-- Embedding of `soup.find('article')`: the first `<article>` element in
document order, if any. -/
def findArticle (doc : Document) : Option ArticleTag :=
  doc.articles.head?

/-- Python truthiness of the `find` result, as tested by `if not article:`
(`main.py` line 52). BeautifulSoup tags are always truthy — `Tag` overrides
boolean conversion to return `True` even for a tag with no contents — so only
`None` is falsy here. -/
def tagTruthy : Option ArticleTag → Bool
  | some _ => true
  | none => false

/-- The direct children scanned by the loop: those of the first `<article>`
if `find` returned one (it is truthy regardless of its contents), else those
of the document body (`main.py` lines 51-53, 61). -/
def rootChildren (doc : Document) : List Node :=
  let article := findArticle doc
  if tagTruthy article then
    (match article with
      | some a => a.children
      | none => [])
  else doc.bodyChildren

/-- The parts of the assembled book the claims are about: the emitted chapter
sequence (in `add_item` order) and the table of contents
`book.toc = tuple(chapters)` (`main.py` lines 55-81). -/
structure Book where
  chapters : List Chapter
  toc : List Chapter
deriving Repr, DecidableEq

/-- Splitting plus book assembly for a parsed document. -/
def buildBook (doc : Document) : Book :=
  let cs := splitChapters (rootChildren doc)
  { chapters := cs, toc := cs }

/-- A validation error of `validate_html_file`: the raised
`FileNotFoundError` or the raised `ValueError` (which carries the offending
suffix in its message). -/
inductive ValidationError where
  | fileNotFound
  | badExtension (suffix : String)
deriving Repr, DecidableEq

/-- A filesystem path as observed by `validate_html_file`: only its
`pathlib` suffix matters for the extension check. -/
structure PyPath where
  suffix : String
deriving Repr, DecidableEq

/-- Python `str.lower()` as used on the suffix: lowercase each character.
This equals `String.toLower` (`String.map Char.toLower`) but is written over
the character list so that it reduces in the kernel. -/
def pyLower (s : String) : String :=
  ⟨s.data.map Char.toLower⟩

/-- Embedding of `validate_html_file` (`main.py` lines 98-106), with the
filesystem abstracted as the predicate `fileExists`: raise `FileNotFoundError`
if the path does not exist, raise `ValueError` if the lowercased suffix is not
`.html`, else return the path unchanged. -/
def validate_html_file (fileExists : PyPath → Bool) (path : PyPath) :
    Except ValidationError PyPath :=
  if !(fileExists path) then .error .fileNotFound
  else if pyLower path.suffix != ".html" then .error (.badExtension path.suffix)
  else .ok path

/-- The number of h1/h2 headings among the scanned nodes. -/
def numHeadings (nodes : List Node) : Nat :=
  (nodes.filter Node.isHeading).length

/-- Whether some tagged node occurs strictly before the first heading (for a
document with no heading: whether some tagged node occurs at all). -/
def preContent (nodes : List Node) : Bool :=
  (nodes.takeWhile (fun el => !el.isHeading)).any Node.hasTag

/-- The hypothesis of the spec property on chapter counts: every heading is
followed by at least one tagged sibling before the next heading. -/
def segmentsOk : List Node → Bool
  | [] => true
  | el :: rest =>
    (!el.isHeading || (rest.takeWhile (fun n => !n.isHeading)).any Node.hasTag)
      && segmentsOk rest

/-- Number of chapters the loop (plus the final flush) will emit from the
remaining nodes, given whether the buffer is currently non-empty. -/
def flushCount : Bool → List Node → Nat
  | buf, [] => if buf then 1 else 0
  | buf, el :: rest =>
    if el.isHeading then (if buf then 1 else 0) + flushCount true rest
    else if el.hasTag then flushCount true rest
    else flushCount buf rest

/-- Reference decimal form of a natural number, most significant digit
first; used to reason about `Nat.repr`. -/
def decDigits (n : Nat) : List Char :=
  if h : n < 10 then [Nat.digitChar n]
  else
    have hlt : n / 10 < n := Nat.div_lt_self (by omega) (by omega)
    decDigits (n / 10) ++ [Nat.digitChar (n % 10)]

/-- The invariant the loop maintains on ordinals and file names: the counter
is one past the number of emitted chapters, the emitted ordinals are
`1, 2, ...` in order, and every file name is `chap_<ordinal>.xhtml`. -/
def ordInv (st : SplitState) : Prop :=
  st.chapter_count = st.chapters.length + 1 ∧
  st.chapters.map Chapter.ordinal = List.range' 1 st.chapters.length ∧
  ∀ c ∈ st.chapters, c.file_name = chapFileName c.ordinal

/-- The `<h1>A</h1>` node of the spec's fixed sample document. -/
def sampleH1 : Node := .elem ⟨"h1", "A", "<h1>A</h1>"⟩

/-- The `<p>x</p>` node of the spec's fixed sample document. -/
def sampleP1 : Node := .elem ⟨"p", "x", "<p>x</p>"⟩

/-- The `<h2>B</h2>` node of the spec's fixed sample document. -/
def sampleH2 : Node := .elem ⟨"h2", "B", "<h2>B</h2>"⟩

/-- The `<p>y</p>` node of the spec's fixed sample document. -/
def sampleP2 : Node := .elem ⟨"p", "y", "<p>y</p>"⟩

/-- The spec's fixed sample document
`<article><h1>A</h1><p>x</p><h2>B</h2><p>y</p></article>`. -/
def sampleDoc : Document :=
  { articles := [⟨[sampleH1, sampleP1, sampleH2, sampleP2]⟩], bodyChildren := [] }

theorem processNode_text (st : SplitState) (s : String) :
    processNode st (Node.text s) = st := rfl

theorem isHeading_hasTag {el : Node} (h : el.isHeading = true) : el.hasTag = true := by
  cases el with
  | elem e =>
    simp only [Node.isHeading, Node.name, pyTruthyName, Bool.and_eq_true] at h
    simpa [Node.hasTag, Node.name, pyTruthyName] using h.1
  | text s => simp [Node.isHeading, Node.name, pyTruthyName] at h

theorem processNode_untagged {el : Node} (h : el.hasTag = false) (st : SplitState) :
    processNode st el = st := by
  have hh : el.isHeading = false := by
    cases hih : el.isHeading
    · rfl
    · simp [isHeading_hasTag hih] at h
  simp [processNode, h, hh]

theorem processNode_tagged_nonheading {el : Node} (hh : el.isHeading = false)
    (ht : el.hasTag = true) (st : SplitState) :
    processNode st el = { st with current_chapter := st.current_chapter ++ [el.str] } := by
  simp [processNode, hh, ht]

theorem processNode_heading {el : Node} (h : el.isHeading = true) (st : SplitState) :
    processNode st el =
      { chapters := st.chapters ++
          (if st.current_chapter.isEmpty then []
            else [make_chapter st.current_title st.current_chapter st.chapter_count])
        chapter_count := st.chapter_count + (if st.current_chapter.isEmpty then 0 else 1)
        current_chapter := [el.str]
        current_title := el.get_text } := by
  have ht := isHeading_hasTag h
  cases st with
  | mk chs cnt buf ttl =>
    cases buf with
    | nil => simp [processNode, h, ht]
    | cons x xs => simp [processNode, h, ht]

theorem foldl_filter_text (nodes : List Node) : ∀ st : SplitState,
    (nodes.filter (fun el => !el.isText)).foldl processNode st
      = nodes.foldl processNode st := by
  induction nodes with
  | nil => intro st; rfl
  | cons el rest ih =>
    intro st
    cases el with
    | elem e =>
      rw [List.filter_cons_of_pos (by simp [Node.isText]), List.foldl_cons,
        List.foldl_cons]
      exact ih _
    | text s =>
      rw [List.filter_cons_of_neg (by simp [Node.isText]), List.foldl_cons,
        processNode_text]
      exact ih st

theorem processNode_bodies (st : SplitState) (el : Node) :
    List.flatten (((processNode st el).chapters).map Chapter.body)
        ++ (processNode st el).current_chapter
      = List.flatten ((st.chapters).map Chapter.body) ++ st.current_chapter
        ++ (if el.hasTag then [el.str] else []) := by
  cases hh : el.isHeading
  · cases ht : el.hasTag
    · rw [processNode_untagged ht]; simp [ht]
    · rw [processNode_tagged_nonheading hh ht]; simp [ht]
  · have ht := isHeading_hasTag hh
    rw [processNode_heading hh]
    cases hb : st.current_chapter.isEmpty
    · simp [hb, ht, make_chapter]
    · simp [hb, ht, List.isEmpty_iff.mp hb]

theorem foldl_bodies (nodes : List Node) : ∀ st : SplitState,
    List.flatten (((nodes.foldl processNode st).chapters).map Chapter.body)
        ++ (nodes.foldl processNode st).current_chapter
      = List.flatten ((st.chapters).map Chapter.body) ++ st.current_chapter
        ++ (nodes.filter Node.hasTag).map Node.str := by
  induction nodes with
  | nil => intro st; simp
  | cons el rest ih =>
    intro st
    rw [List.foldl_cons, ih (processNode st el), processNode_bodies]
    cases ht : el.hasTag
    · simp [List.filter_cons, ht]
    · simp [List.filter_cons, ht]

theorem finalChapters_bodies (st : SplitState) :
    List.flatten ((finalChapters st).map Chapter.body)
      = List.flatten ((st.chapters).map Chapter.body) ++ st.current_chapter := by
  unfold finalChapters
  cases hb : st.current_chapter.isEmpty
  · simp [hb, make_chapter]
  · simp [hb, List.isEmpty_iff.mp hb]

theorem splitChapters_bodies (nodes : List Node) :
    List.flatten ((splitChapters nodes).map Chapter.body)
      = (nodes.filter Node.hasTag).map Node.str := by
  rw [splitChapters, finalChapters_bodies, foldl_bodies]
  simp [initState]

theorem finalChapters_length (st : SplitState) :
    (finalChapters st).length
      = st.chapters.length + (if st.current_chapter.isEmpty then 0 else 1) := by
  unfold finalChapters
  cases hb : st.current_chapter.isEmpty
  · simp [hb]
  · simp [hb]

theorem foldl_flushCount (nodes : List Node) : ∀ st : SplitState,
    (finalChapters (nodes.foldl processNode st)).length
      = st.chapters.length + flushCount (!st.current_chapter.isEmpty) nodes := by
  induction nodes with
  | nil =>
    intro st
    rw [List.foldl_nil, finalChapters_length, flushCount]
    cases hb : st.current_chapter.isEmpty <;> simp
  | cons el rest ih =>
    intro st
    rw [List.foldl_cons, ih, flushCount]
    cases hh : el.isHeading
    · cases ht : el.hasTag
      · rw [processNode_untagged ht]
        simp [hh, ht]
      · rw [processNode_tagged_nonheading hh ht]
        simp [hh, ht]
        have hne : (st.current_chapter ++ [el.str]).isEmpty = false := by simp
        rw [hne]
        rfl
    · rw [processNode_heading hh]
      simp only [hh, if_true]
      cases hb : st.current_chapter.isEmpty
      · simp [hb]
        omega
      · simp [hb]

theorem flushCount_true (nodes : List Node) :
    flushCount true nodes = numHeadings nodes + 1 := by
  induction nodes with
  | nil => rfl
  | cons el rest ih =>
    rw [flushCount]
    cases hh : el.isHeading
    · cases ht : el.hasTag
      · simp only [hh, ht, if_false, ih, numHeadings, List.filter_cons]
        simp [hh]
      · simp only [hh, ht, if_false, if_true, ih, numHeadings, List.filter_cons]
        simp [hh]
    · simp only [hh, if_true, ih, numHeadings, List.filter_cons]
      simp [hh]
      omega

theorem flushCount_false (nodes : List Node) :
    flushCount false nodes = numHeadings nodes + (if preContent nodes then 1 else 0) := by
  induction nodes with
  | nil => rfl
  | cons el rest ih =>
    rw [flushCount]
    cases hh : el.isHeading
    · cases ht : el.hasTag
      · simp only [hh, ht, if_false, ih, numHeadings, preContent, List.filter_cons,
          List.takeWhile_cons]
        simp [hh, ht]
      · simp only [hh, ht, if_false, if_true, flushCount_true, numHeadings, preContent,
          List.filter_cons, List.takeWhile_cons]
        simp [hh, ht]
    · simp only [hh, if_true, flushCount_true, numHeadings, preContent,
        List.filter_cons, List.takeWhile_cons]
      simp [hh]

theorem splitChapters_length (nodes : List Node) :
    (splitChapters nodes).length
      = numHeadings nodes + (if preContent nodes then 1 else 0) := by
  rw [splitChapters, foldl_flushCount]
  simp [initState, flushCount_false]

theorem ordInv_append {st : SplitState} (h : ordInv st) (ttl : String)
    (buf : List String) :
    ((st.chapters ++ [make_chapter ttl buf st.chapter_count]).map Chapter.ordinal
        = List.range' 1 (st.chapters ++ [make_chapter ttl buf st.chapter_count]).length) ∧
    ∀ c ∈ st.chapters ++ [make_chapter ttl buf st.chapter_count],
      c.file_name = chapFileName c.ordinal := by
  obtain ⟨h1, h2, h3⟩ := h
  constructor
  · rw [List.map_append, h2, List.length_append, List.length_singleton,
      List.range'_concat]
    simp only [make_chapter, List.map_cons, List.map_nil, h1,
      List.append_cancel_left_eq, List.cons.injEq, and_true]
    omega
  · intro c hc
    rcases List.mem_append.mp hc with hc | hc
    · exact h3 c hc
    · simp only [List.mem_singleton] at hc
      subst hc
      simp [make_chapter]

theorem processNode_ordInv {st : SplitState} (h : ordInv st) (el : Node) :
    ordInv (processNode st el) := by
  obtain ⟨h1, h2, h3⟩ := h
  cases hh : el.isHeading
  · cases ht : el.hasTag
    · rw [processNode_untagged ht]; exact ⟨h1, h2, h3⟩
    · rw [processNode_tagged_nonheading hh ht]; exact ⟨h1, h2, h3⟩
  · rw [processNode_heading hh]
    cases hb : st.current_chapter.isEmpty
    · simp only [hb, Bool.false_eq_true, if_false]
      have hap := ordInv_append ⟨h1, h2, h3⟩ st.current_title st.current_chapter
      refine ⟨?_, hap.1, hap.2⟩
      simp [h1]
    · simp only [hb, if_true]
      exact ⟨by simp [h1], by simpa using h2, by simpa using h3⟩

theorem foldl_ordInv (nodes : List Node) : ∀ st : SplitState, ordInv st →
    ordInv (nodes.foldl processNode st) := by
  induction nodes with
  | nil => intro st h; exact h
  | cons el rest ih => intro st h; exact ih _ (processNode_ordInv h el)

theorem splitChapters_ordinals (nodes : List Node) :
    ((splitChapters nodes).map Chapter.ordinal
        = List.range' 1 (splitChapters nodes).length) ∧
    ∀ c ∈ splitChapters nodes, c.file_name = chapFileName c.ordinal := by
  have h : ordInv (nodes.foldl processNode initState) := by
    refine foldl_ordInv nodes initState ⟨rfl, rfl, ?_⟩
    intro c hc
    cases hc
  rw [splitChapters, finalChapters]
  cases hb : (nodes.foldl processNode initState).current_chapter.isEmpty
  · simp only [hb, Bool.false_eq_true, if_false]
    exact ordInv_append h _ _
  · simp only [hb, if_true]
    exact ⟨h.2.1, h.2.2⟩

theorem foldl_no_heading (nodes : List Node) : ∀ st : SplitState,
    (∀ el ∈ nodes, el.isHeading = false) →
    nodes.foldl processNode st
      = { st with current_chapter :=
            st.current_chapter ++ (nodes.filter Node.hasTag).map Node.str } := by
  induction nodes with
  | nil => intro st _; simp
  | cons el rest ih =>
    intro st h
    have hh : el.isHeading = false := h el (List.mem_cons_self el rest)
    have hrest : ∀ x ∈ rest, x.isHeading = false :=
      fun x hx => h x (List.mem_cons_of_mem el hx)
    rw [List.foldl_cons]
    cases ht : el.hasTag
    · rw [processNode_untagged ht, ih st hrest]
      simp [List.filter_cons, ht]
    · rw [processNode_tagged_nonheading hh ht, ih _ hrest]
      simp [List.filter_cons, ht]

theorem decDigits_ne_nil (n : Nat) : decDigits n ≠ [] := by
  unfold decDigits
  split
  · simp
  · simp

theorem digitChar_inj :
    ∀ a, a < 10 → ∀ b, b < 10 → Nat.digitChar a = Nat.digitChar b → a = b := by
  decide

theorem decDigits_eq_lt {n : Nat} (h : n < 10) : decDigits n = [Nat.digitChar n] := by
  conv_lhs => rw [decDigits]
  rw [dif_pos h]

theorem decDigits_eq_ge {n : Nat} (h : ¬ n < 10) :
    decDigits n = decDigits (n / 10) ++ [Nat.digitChar (n % 10)] := by
  conv_lhs => rw [decDigits]
  rw [dif_neg h]

theorem decDigits_inj : ∀ m n : Nat, decDigits m = decDigits n → m = n := by
  intro m
  induction m using Nat.strong_induction_on with
  | _ m ih =>
    intro n h
    by_cases hm : m < 10 <;> by_cases hn : n < 10
    · rw [decDigits_eq_lt hm, decDigits_eq_lt hn] at h
      simp only [List.cons.injEq, and_true] at h
      exact digitChar_inj m hm n hn h
    · rw [decDigits_eq_lt hm, decDigits_eq_ge hn] at h
      have hlen := congrArg List.length h
      simp only [List.length_cons, List.length_nil, List.length_append,
        List.length_singleton] at hlen
      have hnil : decDigits (n / 10) = [] := List.length_eq_zero.mp (by omega)
      exact absurd hnil (decDigits_ne_nil _)
    · rw [decDigits_eq_ge hm, decDigits_eq_lt hn] at h
      have hlen := congrArg List.length h
      simp only [List.length_cons, List.length_nil, List.length_append,
        List.length_singleton] at hlen
      have hnil : decDigits (m / 10) = [] := List.length_eq_zero.mp (by omega)
      exact absurd hnil (decDigits_ne_nil _)
    · rw [decDigits_eq_ge hm, decDigits_eq_ge hn] at h
      have hp := List.append_inj' h (by simp)
      have hdiv : m / 10 = n / 10 := ih (m / 10) (by omega) (n / 10) hp.1
      have hmod : m % 10 = n % 10 := by
        have h2 := hp.2
        simp only [List.cons.injEq, and_true] at h2
        exact digitChar_inj _ (Nat.mod_lt _ (by omega)) _ (Nat.mod_lt _ (by omega)) h2
      omega

theorem toDigitsCore_eq : ∀ n fuel ds, n < fuel →
    Nat.toDigitsCore 10 fuel n ds = decDigits n ++ ds := by
  intro n
  induction n using Nat.strong_induction_on with
  | _ n ih =>
    intro fuel ds hlt
    match fuel with
    | 0 => omega
    | f + 1 =>
      simp only [Nat.toDigitsCore]
      by_cases h0 : n / 10 = 0
      · rw [if_pos h0]
        have hn : n < 10 := by omega
        rw [decDigits_eq_lt hn, Nat.mod_eq_of_lt hn]
        rfl
      · rw [if_neg h0]
        rw [ih (n / 10) (by omega) f _ (by omega)]
        rw [decDigits_eq_ge (by omega : ¬ n < 10)]
        simp

theorem natRepr_eq_decDigits (k : Nat) : Nat.repr k = (decDigits k).asString := by
  unfold Nat.repr Nat.toDigits
  rw [toDigitsCore_eq k (k + 1) [] (Nat.lt_succ_self k), List.append_nil]

theorem natRepr_inj {m n : Nat} (h : Nat.repr m = Nat.repr n) : m = n := by
  apply decDigits_inj
  rw [natRepr_eq_decDigits, natRepr_eq_decDigits] at h
  exact congrArg String.data h

theorem chapFileName_injective : Function.Injective chapFileName := by
  intro i j h
  apply natRepr_inj
  apply String.ext
  have hd := congrArg String.data h
  simp only [chapFileName, String.data_append] at hd
  have h1 := (List.append_inj' hd rfl).1
  exact List.append_cancel_left h1

/-- Claim C1, counterexample: on the document whose traversal root has the two
consecutive headings `<h1>A</h1>` and `<h2>B</h2>` with nothing between them,
processing the two headings does flush a chapter between them (titled `"A"`,
containing exactly the serialized first heading) and does advance the ordinal
counter from 1 to 2: the heading itself is tagged content, so the buffer is
non-empty when the second heading is reached. This contradicts the claim that
no chapter is produced and the ordinal does not advance. -/
theorem C1_cex_chapter_between_consecutive_headings :
    (List.foldl processNode initState [sampleH1, sampleH2]).chapters
        = [make_chapter "A" ["<h1>A</h1>"] 1]
      ∧ (List.foldl processNode initState [sampleH1, sampleH2]).chapter_count = 2 := by
  constructor <;> rfl

/-- Claim C1, amended: at the first of two consecutive h1/h2 headings the
buffer becomes exactly the serialized first heading and the pending title
becomes the first heading's text; at the second heading that one-element
buffer is flushed as a chapter titled with the first heading's text, the
ordinal advances by one, and the second heading's title replaces the pending
title with the second heading's serialization starting the next buffer. -/
theorem C1_amended_consecutive_headings_flush (st : SplitState) (a b : Node)
    (ha : a.isHeading = true) (hb : b.isHeading = true) :
    (processNode st a).current_chapter = [a.str] ∧
    (processNode st a).current_title = a.get_text ∧
    processNode (processNode st a) b =
      { chapters := (processNode st a).chapters ++
          [make_chapter a.get_text [a.str] (processNode st a).chapter_count]
        chapter_count := (processNode st a).chapter_count + 1
        current_chapter := [b.str]
        current_title := b.get_text } := by
  have h1 := processNode_heading ha st
  have h2 := processNode_heading hb (processNode st a)
  refine ⟨?_, ?_, ?_⟩
  · rw [h1]
  · rw [h1]
  · rw [h2, h1]
    simp [make_chapter]

/-- Witness for the amended claim C1 at the concrete state `initState` and
the concrete headings of the sample document. -/
theorem C1_amended_witness :
    sampleH1.isHeading = true ∧ sampleH2.isHeading = true ∧
    ((processNode initState sampleH1).current_chapter = [sampleH1.str] ∧
      (processNode initState sampleH1).current_title = sampleH1.get_text ∧
      processNode (processNode initState sampleH1) sampleH2 =
        { chapters := (processNode initState sampleH1).chapters ++
            [make_chapter sampleH1.get_text [sampleH1.str]
              (processNode initState sampleH1).chapter_count]
          chapter_count := (processNode initState sampleH1).chapter_count + 1
          current_chapter := [sampleH2.str]
          current_title := sampleH2.get_text }) :=
  ⟨by decide, by decide,
    C1_amended_consecutive_headings_flush initState sampleH1 sampleH2
      (by decide) (by decide)⟩

/-- Claim C2: for every input, the ordinals of the emitted chapters are
exactly `1, 2, ..., K` (strictly increasing by 1 from 1), every file name is
`chap_<ordinal>.xhtml`, and the file names are pairwise distinct with no
skipped index; in particular the final flush, which reuses the current
counter without a further increment, collides with no earlier chapter. -/
theorem C2_ordinals_consecutive_filenames_distinct (nodes : List Node) :
    (splitChapters nodes).map Chapter.ordinal
        = List.range' 1 (splitChapters nodes).length ∧
    (splitChapters nodes).map Chapter.file_name
        = (List.range' 1 (splitChapters nodes).length).map chapFileName ∧
    ((splitChapters nodes).map Chapter.file_name).Nodup := by
  obtain ⟨h1, h2⟩ := splitChapters_ordinals nodes
  have hf : (splitChapters nodes).map Chapter.file_name
      = (List.range' 1 (splitChapters nodes).length).map chapFileName := by
    rw [← h1, List.map_map]
    exact List.map_congr_left h2
  refine ⟨h1, hf, ?_⟩
  rw [hf]
  exact List.Nodup.map chapFileName_injective (List.nodup_range' 1 _)

/-- Claim C3, counterexample: a traversal root whose only direct child is a
bare text node has zero h1/h2 headings, yet the split produces zero chapters,
not the single `"Introduction"` chapter the claim requires (nothing tagged is
ever buffered, so no flush happens). -/
theorem C3_cex_text_only_document_yields_no_chapter :
    numHeadings [Node.text "stray"] = 0 ∧ splitChapters [Node.text "stray"] = [] := by
  constructor <;> rfl

/-- Claim C3, amended: for a traversal root with zero h1/h2 headings among
its direct children and at least one tagged child, the split produces exactly
one chapter, titled `"Introduction"` with ordinal 1, whose body is the
sequence of serialized forms of all tagged top-level children in document
order; with zero tagged children it produces no chapter at all. -/
theorem C3_amended_zero_headings_single_intro_chapter (nodes : List Node)
    (hh : ∀ el ∈ nodes, el.isHeading = false)
    (hne : nodes.filter Node.hasTag ≠ []) :
    splitChapters nodes
      = [make_chapter "Introduction" ((nodes.filter Node.hasTag).map Node.str) 1] := by
  rw [splitChapters, foldl_no_heading nodes initState hh]
  have hX : ((nodes.filter Node.hasTag).map Node.str) ≠ [] := by
    simpa using hne
  simp [finalChapters, initState, List.isEmpty_iff, hX]

/-- Witness for the amended claim C3 at the concrete one-paragraph document. -/
theorem C3_amended_witness :
    (∀ el ∈ [sampleP1], el.isHeading = false) ∧
    [sampleP1].filter Node.hasTag ≠ [] ∧
    splitChapters [sampleP1]
      = [make_chapter "Introduction" (([sampleP1].filter Node.hasTag).map Node.str) 1] :=
  ⟨by decide, by decide,
    C3_amended_zero_headings_single_intro_chapter [sampleP1] (by decide) (by decide)⟩

/-- Claim C4: the traversal root whose direct children are scanned is the
first `<article>` element whenever the document contains one — regardless of
that element's contents, since a BeautifulSoup tag is truthy even when empty
— and otherwise the document body. -/
theorem C4_traversal_root_first_article_else_body (doc : Document) :
    (∀ a rest, doc.articles = a :: rest → rootChildren doc = a.children) ∧
    (doc.articles = [] → rootChildren doc = doc.bodyChildren) := by
  constructor
  · intro a rest heq
    unfold rootChildren findArticle
    rw [heq]
    rfl
  · intro heq
    unfold rootChildren findArticle
    rw [heq]
    rfl

/-- Witness for claim C4: a document whose first `<article>` is empty still
uses that article (yielding no children, not the body's), and a document with
no `<article>` uses the body. -/
theorem C4_traversal_root_witness :
    rootChildren { articles := [⟨[]⟩], bodyChildren := [sampleP1] } = [] ∧
    rootChildren { articles := [], bodyChildren := [sampleP1] } = [sampleP1] :=
  ⟨(C4_traversal_root_first_article_else_body _).1 ⟨[]⟩ [] rfl,
    (C4_traversal_root_first_article_else_body _).2 rfl⟩

/-- Claim C5: on the fixed sample document
`<article><h1>A</h1><p>x</p><h2>B</h2><p>y</p></article>` the split produces
exactly two chapters, titled `"A"` and `"B"`, each whose body is the
serialized heading followed by the following paragraph. -/
theorem C5_sample_document_two_chapters :
    (buildBook sampleDoc).chapters =
      [{ title := "A", ordinal := 1, file_name := "chap_1.xhtml",
         body := ["<h1>A</h1>", "<p>x</p>"], content := "['<h1>A</h1>', '<p>x</p>']" },
       { title := "B", ordinal := 2, file_name := "chap_2.xhtml",
         body := ["<h2>B</h2>", "<p>y</p>"], content := "['<h2>B</h2>', '<p>y</p>']" }] := by
  rfl

/-- Claim C6: when every heading is followed by at least one tagged sibling
before the next heading, the number of emitted chapters is exactly the number
of headings, plus one exactly when there is tagged content before the first
heading. (The code satisfies the stated count even without the hypothesis.) -/
theorem C6_chapter_count_headings_plus_pre (nodes : List Node)
    (_hseg : segmentsOk nodes = true) :
    (splitChapters nodes).length
      = numHeadings nodes + (if preContent nodes then 1 else 0) :=
  splitChapters_length nodes

/-- Witness for claim C6 at the sample document's children. -/
theorem C6_chapter_count_witness :
    segmentsOk [sampleH1, sampleP1, sampleH2, sampleP2] = true ∧
    (splitChapters [sampleH1, sampleP1, sampleH2, sampleP2]).length
      = numHeadings [sampleH1, sampleP1, sampleH2, sampleP2]
        + (if preContent [sampleH1, sampleP1, sampleH2, sampleP2] then 1 else 0) :=
  ⟨by decide, C6_chapter_count_headings_plus_pre _ (by decide)⟩

/-- Claim C7: bare text nodes are ignored completely — processing one leaves
the loop state unchanged, deleting all of them from the input changes neither
boundaries nor output, and every string in any emitted chapter's body is the
serialized form of some tagged node of the input. -/
theorem C7_text_nodes_never_in_bodies_nor_boundaries :
    (∀ (st : SplitState) (s : String), processNode st (Node.text s) = st) ∧
    (∀ nodes : List Node,
      splitChapters (nodes.filter (fun el => !el.isText)) = splitChapters nodes) ∧
    (∀ nodes : List Node,
      ((splitChapters nodes).all fun c =>
        c.body.all fun s => ((nodes.filter Node.hasTag).map Node.str).contains s) = true) := by
  refine ⟨processNode_text, ?_, ?_⟩
  · intro nodes
    rw [splitChapters, splitChapters, foldl_filter_text]
  · intro nodes
    rw [List.all_eq_true]
    intro c hc
    rw [List.all_eq_true]
    intro s hs
    have hmem : s ∈ (nodes.filter Node.hasTag).map Node.str := by
      rw [← splitChapters_bodies]
      exact List.mem_flatten.mpr ⟨c.body, List.mem_map_of_mem Chapter.body hc, hs⟩
    exact List.elem_eq_true_of_mem hmem

/-- Claim C8: the table of contents is exactly the emitted chapter sequence,
and the concatenation of the chapter bodies is the sequence of serialized
tagged children of the traversal root in document order — chapters appear in
the same relative order as their content appeared in the document. -/
theorem C8_chapters_and_toc_preserve_document_order (doc : Document) :
    (buildBook doc).toc = (buildBook doc).chapters ∧
    List.flatten (((buildBook doc).chapters).map Chapter.body)
      = ((rootChildren doc).filter Node.hasTag).map Node.str :=
  ⟨rfl, splitChapters_bodies _⟩

/-- Claim C9: validation fails with a not-found error for every path that
does not exist, fails with an extension error for every existing path whose
suffix does not lowercase to `.html`, and returns the path unchanged exactly
when the path exists and its suffix lowercases to `.html`. -/
theorem C9_validate_html_file_spec (fileExists : PyPath → Bool) (path : PyPath) :
    (fileExists path = false →
      validate_html_file fileExists path = .error .fileNotFound) ∧
    (fileExists path = true → pyLower path.suffix ≠ ".html" →
      validate_html_file fileExists path = .error (.badExtension path.suffix)) ∧
    (validate_html_file fileExists path = .ok path ↔
      fileExists path = true ∧ pyLower path.suffix = ".html") := by
  refine ⟨?_, ?_, ?_⟩
  · intro h
    simp [validate_html_file, h]
  · intro h1 h2
    simp [validate_html_file, h1, h2]
  · constructor
    · intro h
      by_cases he : fileExists path
      · by_cases hs : pyLower path.suffix = ".html"
        · exact ⟨he, hs⟩
        · simp [validate_html_file, he, hs] at h
      · simp [validate_html_file, he] at h
    · rintro ⟨h1, h2⟩
      simp [validate_html_file, h1, h2]

/-- Witness for claim C9: a missing file fails with not-found, an existing
`.htm` file fails with the extension error, and an existing `.HTML` file
passes case-insensitively. -/
theorem C9_validate_html_file_witness :
    validate_html_file (fun _ => false) ⟨".html"⟩ = .error .fileNotFound ∧
    validate_html_file (fun _ => true) ⟨".htm"⟩ = .error (.badExtension ".htm") ∧
    validate_html_file (fun _ => true) ⟨".HTML"⟩ = .ok ⟨".HTML"⟩ :=
  ⟨(C9_validate_html_file_spec _ _).1 rfl,
    (C9_validate_html_file_spec _ _).2.1 rfl (by decide),
    (C9_validate_html_file_spec _ _).2.2.mpr ⟨rfl, by decide⟩⟩

/-- Claim C10: the stored chapter content is the Python string representation
of the buffered list — brackets, per-element quotes and comma separators
included — and not the concatenation of the serialized nodes. -/
theorem C10_content_is_python_list_string (title : String) (body : List String)
    (idx : Nat) :
    (make_chapter title body idx).content = pyStrList body ∧
    pyStrList ["<h1>A</h1>", "<p>x</p>"] = "['<h1>A</h1>', '<p>x</p>']" ∧
    pyStrList ["<h1>A</h1>", "<p>x</p>"] ≠ "<h1>A</h1>" ++ "<p>x</p>" := by
  refine ⟨rfl, by decide, by decide⟩

end EpubSplit
